import Mathlib

/-!
# SoundSight waveform generator: a shallow embedding

This file embeds the algorithmic core of `waveform_generator.py` in Lean 4
and proves (or refutes) properties of it.

Modelling decisions, used uniformly below:
* A binary file is a `List Nat` of its bytes (each `< 256` in reality; theorems
  that need this bound take it as a hypothesis).
* Python's machine-independent integers are `Nat` (all quantities in the
  sampler are non-negative); Python floor division `//` on the non-negative
  values that occur is `Nat` division.
* Python exceptions are `Option`/`Except`: a raised exception is `none`/`.error`.
* The two floating-point expressions of the pixel pipeline are modelled by
  exact rational arithmetic: `int(data / 255 * height)` (with
  `0 ≤ data ≤ 255`) is the floor `data * height / 255`, and the flat-line test
  `v / height == 0.5` is the exact rational test `(v : ℚ) / height = 1/2`
  (for `v ≤ height < 2^52` the double quotient equals `0.5` exactly iff the
  rational does).
-/

set_option maxRecDepth 8192

/- The rational operations of the standard library are marked irreducible,
which blocks `decide` on the concrete rational computations below; restore
their reducibility so that witnesses and counterexamples evaluate. -/
set_option allowUnsafeReducibility true
attribute [semireducible] Rat.mul Rat.inv Rat.add Rat.sub Rat.ofScientific

namespace SoundSight

/-! ## Container header parser (`parse_wav_header`, source lines 84-99) -/

/-- The typed header structure built by `parse_wav_header`. -/
structure WavHeader where
  chunk_id : List Nat
  chunk_size : Nat
  format : List Nat
  subchunk1_id : List Nat
  subchunk1_size : Nat
  audio_format : Nat
  num_channels : Nat
  sample_rate : Nat
  byte_rate : Nat
  block_align : Nat
  bits_per_sample : Nat
  subchunk2_id : List Nat
  subchunk2_size : Nat
deriving Repr, DecidableEq

/-- Little-endian 16-bit read (`struct.unpack` with a `<H` pattern) at `pos`. -/
def readU16 (file : List Nat) (pos : Nat) : Nat :=
  file.getD pos 0 + 256 * file.getD (pos + 1) 0

/-- Little-endian 32-bit read (`struct.unpack` with a `<I` pattern) at `pos`. -/
def readU32 (file : List Nat) (pos : Nat) : Nat :=
  file.getD pos 0 + 256 * file.getD (pos + 1) 0 + 65536 * file.getD (pos + 2) 0 +
    16777216 * file.getD (pos + 3) 0

/-- Embeds `parse_wav_header`: thirteen sequential reads covering bytes 0-43.
In the source, a file shorter than 44 bytes makes the last `struct.unpack`
(bytes 40-43) or an earlier one receive a short buffer and raise
`struct.error`; that is the `none` case. On success the handle is left at
offset 44. -/
def parse_wav_header (file : List Nat) : Option WavHeader :=
  if 44 ≤ file.length then
    some { chunk_id := (file.drop 0).take 4
           chunk_size := readU32 file 4
           format := (file.drop 8).take 4
           subchunk1_id := (file.drop 12).take 4
           subchunk1_size := readU32 file 16
           audio_format := readU16 file 20
           num_channels := readU16 file 22
           sample_rate := readU32 file 24
           byte_rate := readU32 file 28
           block_align := readU16 file 32
           bits_per_sample := readU16 file 34
           subchunk2_id := (file.drop 36).take 4
           subchunk2_size := readU32 file 40 }
  else none

/-! ## Amplitude sampler (`find_values`, `process_wav_file`, source lines 80-140) -/

/-- Embeds `find_values` (source lines 80-81). -/
def find_values (byte1 : Nat) (byte2 : Nat) : Nat :=
  byte1 + byte2 * 256

/-- The per-sample byte-value decoder of `process_wav_file` (source lines
119-131), reading `bps` bytes at offset `pos` of `file`.  The `getD` defaults
are never reached by the sampler, which only decodes after checking that
`bps` bytes remain. -/
def decodeSample (file : List Nat) (pos : Nat) (bps : Nat) : Nat :=
  if bps = 1 then
    file.getD pos 0
  else if bps = 2 then
    let byte1 := file.getD pos 0
    let byte2 := file.getD (pos + 1) 0
    let temp := if byte2 &&& 128 ≠ 0 then 0 else 128
    find_values byte1 ((byte2 &&& 127) + temp) / 256
  else 128

/-- `byte_per_sample` of `process_wav_file` (source line 107). -/
def bytePerSample (header : WavHeader) : Nat :=
  header.bits_per_sample / 8

/-- `ratio` of `process_wav_file` (source line 109). -/
def ratioOf (header : WavHeader) : Nat :=
  if header.num_channels = 2 then 40 else 80

/-- `data_size` of `process_wav_file` (source line 111).  `parse_wav_header`
succeeded, so `file.length ≥ 44` and the `Nat` subtraction agrees with the
Python expression `(file_size - 44) // (ratio + byte_per_sample) + 1`. -/
def dataSizeOf (file : List Nat) (header : WavHeader) : Nat :=
  (file.length - 44) / (ratioOf header + bytePerSample header) + 1

/-- Embeds the `while data_point < data_size` loop of `process_wav_file`
(source lines 113-139).  `fuel` is the number of remaining iterations
(`data_size - data_point`), `pos` the current stream offset, `i` the current
`data_point`.  The truncation check `file.length - pos < bps` is Python's
`len(bytes_data) < byte_per_sample` after `bytes_data = handle.read(bps)`
(with `Nat` subtraction giving `0` when the offset is past end-of-file,
exactly like a short `read`); on truncation the loop breaks and the points
collected so far are returned.  The appended value embeds
`v = int(data / 255 * height)` as the exact floor `data * height / 255` —
the formula the specification states.  (CPython evaluates the expression in
double precision; exhaustively over `data ∈ 0..255`, the double agrees with
the exact floor except when `data * height` is an exact multiple of 255 —
first at `height = 51` — where the double can come out one less, never
more.  The claims' concrete height 100 has no such point.) -/
def sampleLoop (file : List Nat) (bps skip height detail : Nat) :
    Nat → Nat → Nat → List Nat
  | 0, _, _ => []
  | fuel + 1, pos, i =>
    if i % detail = 0 then
      if file.length - pos < bps then []
      else
        decodeSample file pos bps * height / 255 ::
          sampleLoop file bps skip height detail fuel (pos + bps + skip) (i + 1)
    else
      sampleLoop file bps skip height detail fuel (pos + skip + bps) (i + 1)

/-- Embeds `process_wav_file` (source lines 102-140).  `none` is the
uncaught `struct.error` escaping from `parse_wav_header`; the loop itself
cannot fail (its `IOError`/`struct.error` handler and the truncation check
both just end the loop).  The source's default `detail` is the constant
`DETAIL = 5`; a `detail` of `0` would raise `ZeroDivisionError` in Python,
so all theorems below assume `0 < detail`. -/
def process_wav_file (file : List Nat) (height : Nat) (detail : Nat) :
    Option (List Nat) :=
  match parse_wav_header file with
  | none => none
  | some header =>
      some (sampleLoop file (bytePerSample header) (ratioOf header) height detail
        (dataSizeOf file header) 44 0)

/-! ### Concrete test data -/

/-- A canonical 44-byte mono 16-bit 8000 Hz header (`RIFF…WAVEfmt …data…`). -/
def monoHeader : List Nat :=
  [82, 73, 70, 70, 0, 0, 0, 0, 87, 65, 86, 69,
   102, 109, 116, 32, 16, 0, 0, 0, 1, 0, 1, 0,
   64, 31, 0, 0, 128, 62, 0, 0, 2, 0, 16, 0,
   100, 97, 116, 97, 0, 0, 0, 0]

/-- A mono 16-bit file whose payload is `n` zero bytes. -/
def zeroFile (n : Nat) : List Nat :=
  monoHeader ++ List.replicate n 0

example : (parse_wav_header (zeroFile 84)).map WavHeader.num_channels = some 1 := by decide
example : (parse_wav_header (zeroFile 84)).map WavHeader.bits_per_sample = some 16 := by decide
example : process_wav_file (zeroFile 84) 100 5 = some [50] := by decide

/-! ## Color parsing (`html2rgb`, source lines 69-77) -/

/-- Hexadecimal digit test for Python's `int(s, 16)`. -/
def hexDigit (c : Char) : Bool :=
  c.isDigit || (97 ≤ c.toNat && c.toNat ≤ 102) || (65 ≤ c.toNat && c.toNat ≤ 70)

/-- Value of a hexadecimal digit. -/
def hexVal (c : Char) : Nat :=
  if c.isDigit then c.toNat - 48
  else if 97 ≤ c.toNat then c.toNat - 87
  else c.toNat - 55

/-- ASCII whitespace, which Python's `int` strips from its argument. -/
def pySpace (c : Char) : Bool :=
  c = ' ' || c = '\t' || c = '\n' || c = '\x0d' || c = '\x0b' || c = '\x0c'

/-- Embeds Python's `int(s, 16)` on a two-character slice `[c1, c2]`, as used
by `html2rgb`.  Besides two hex digits, Python also accepts a single hex
digit padded by whitespace on either side or preceded by a sign (a `-` sign
yields a negative value); everything else raises `ValueError` (`none`).
Non-ASCII whitespace and non-ASCII digits are outside the modelled byte
strings. -/
def pyHexPair (c1 c2 : Char) : Option Int :=
  if hexDigit c1 && hexDigit c2 then some (16 * (hexVal c1 : Int) + hexVal c2)
  else if pySpace c1 && hexDigit c2 then some ((hexVal c2 : Int))
  else if hexDigit c1 && pySpace c2 then some ((hexVal c1 : Int))
  else if c1 = '+' && hexDigit c2 then some ((hexVal c2 : Int))
  else if c1 = '-' && hexDigit c2 then some (-(hexVal c2 : Int))
  else none

/-- Embeds `html2rgb` (source lines 69-77).  `lstrip('#')` removes *every*
leading `#`; the explicit length test then raises `ValueError` (`none`)
unless exactly six characters remain, and each two-character slice goes
through `int(_, 16)`. -/
def html2rgb (html_color : String) : Option (Int × Int × Int) :=
  match html_color.toList.dropWhile (fun c => c = '#') with
  | [a, b, c, d, e, f] => do
      let r ← pyHexPair a b
      let g ← pyHexPair c d
      let bl ← pyHexPair e f
      some (r, g, bl)
  | _ => none

example : html2rgb "#FF0000" = some (255, 0, 0) := by decide
example : html2rgb "00Ff00" = some (0, 255, 0) := by decide
example : html2rgb "##ABCDEF" = some (171, 205, 239) := by decide
example : html2rgb "#ABCDE" = none := by decide
example : html2rgb "GG0000" = none := by decide

/-! ## Waveform renderer (`generate_waveform_image`, source lines 143-185) -/

/-- One painted vertical line `draw.line([(x, y1), (x, y2)])` with `y1 ≤ y2`
(source lines 177-181 swap the endpoints when inverted). -/
structure Line where
  x : Nat
  y1 : Nat
  y2 : Nat
deriving Repr, DecidableEq

/-- The column test of source line 176: the column is painted unless
`v / height == 0.5 and not draw_flat`.  The float quotient is modelled by
the exact rational quotient (exact for all realistic heights, where
`v / height` is a float equal to `0.5` iff the rational is `1/2`). -/
def columnKept (v height : Nat) (draw_flat : Bool) : Bool :=
  !(decide ((v : ℚ) / (height : ℚ) = 1 / 2) && !draw_flat)

/-- The per-channel paint loop of source lines 175-181: for each column `x`
with amplitude `v`, if kept, a vertical line from `y_offset + (height - v)`
to `y_offset + v` (endpoints swapped if inverted). -/
def channelLines (data_points : List Nat) (height y_offset : Nat)
    (draw_flat : Bool) : List Line :=
  data_points.enum.filterMap fun p =>
    if columnKept p.2 height draw_flat then
      let y1 := y_offset + (height - p.2)
      let y2 := y_offset + p.2
      some (if y2 < y1 then ⟨p.1, y2, y1⟩ else ⟨p.1, y1, y2⟩)
    else none

/-- The source's `DETAIL` constant (line 46). -/
def DETAIL : Nat := 5

/-- The errors `generate_waveform_image` can raise: the two dimension
`ValueError`s, the `struct.error` escaping from `process_wav_file`, the
no-data `ValueError`, and the color `ValueError` from `html2rgb`. -/
inductive GenError
  | invalidDimension
  | malformedHeader
  | noData
  | invalidColor
deriving Repr, DecidableEq

/-- The canvas as far as the claims observe it: final dimensions, the
background (`none` = the fully transparent RGBA canvas), the foreground
color, and the painted vertical lines.  Pixel-level resampling of the
canvas content (`Image.resize` with the LANCZOS filter) is the external
imaging library; the model records the dimension change it performs. -/
structure WaveImage where
  width : Nat
  height : Nat
  bg : Option (Int × Int × Int)
  fg : Int × Int × Int
  lines : List Line
deriving Repr, DecidableEq

/-- The `for wav_file in wav_files` loop of source lines 156-158: any
exception escaping `process_wav_file` aborts the whole call. -/
def allPoints (wav_files : List (List Nat)) (height detail : Nat) :
    Option (List (List Nat)) :=
  wav_files.mapM (fun f => process_wav_file f height detail)

/-- Source lines 163-167: an empty (Python-falsy) background string selects
the transparent RGBA canvas (`none`); otherwise the string must parse. -/
def parseBackground (background : String) :
    Except GenError (Option (Int × Int × Int)) :=
  if background = "" then .ok none
  else
    match html2rgb background with
    | some c => .ok (some c)
    | none => .error .invalidColor

/-- Source lines 169-172: an empty foreground string falls back to red;
otherwise the string must parse. -/
def parseForeground (foreground : String) : Except GenError (Int × Int × Int) :=
  if foreground = "" then .ok (255, 0, 0)
  else
    match html2rgb foreground with
    | some c => .ok c
    | none => .error .invalidColor

/-- Embeds `generate_waveform_image` (source lines 143-185).  `width` and
`height` are the positive ints that survive the source's `<= 0` checks
(modelled on `Nat` by `= 0`); an empty color string is Python-falsy.
Note two structural facts preserved from the source: the no-data check
looks only at `all_data_points[0]`, and the final resize (taken whenever
the requested width differs from the natural width) uses
`final_height = height`, not `total_height`. -/
def generate_waveform_image (wav_files : List (List Nat)) (width height : Nat)
    (foreground background : String) (draw_flat : Bool) :
    Except GenError WaveImage :=
  if height = 0 then .error .invalidDimension
  else if width = 0 then .error .invalidDimension
  else
    match allPoints wav_files height DETAIL with
    | none => .error .malformedHeader
    | some all_data_points =>
      if all_data_points = [] ∨ all_data_points.headD [] = [] then .error .noData
      else
        let original_width := (all_data_points.headD []).length
        let total_height := height * wav_files.length
        match parseBackground background with
        | .error e => .error e
        | .ok bg =>
          match parseForeground foreground with
          | .error e => .error e
          | .ok fg =>
            let lines := (all_data_points.enum.map fun ch =>
              channelLines ch.2 height (height * ch.1) draw_flat).flatten
            let img : WaveImage :=
              ⟨original_width, total_height, bg, fg, lines⟩
            if width ≠ original_width then
              .ok { img with width := width, height := height }
            else .ok img

/-! ## Template-correlation classifier (`analyze_music`, source lines 218-344)

The pitch-class vector `chroma_mean` is a 12-element vector of real energies,
modelled as a `List ℚ`.  For 12-element vectors `x`, `y` the Pearson
correlation computed by `np.corrcoef(x, y)[0, 1]` is

  `corr x y = corrA x y / Real.sqrt (corrB x * corrB y)`,

where `corrA x y = 12 * Σ xᵢyᵢ - (Σ xᵢ)(Σ yᵢ)` and
`corrB x = 12 * Σ xᵢ² - (Σ xᵢ)²` (both numerator and denominator of the
textbook formula scaled by `12`); it is NaN exactly when `corrB x = 0` or
`corrB y = 0`.  The source only ever *compares* correlations, so instead of
leaving ℚ we track the strictly monotone image

  `corrK x y = corr x y * |corr x y| = corrA x y * |corrA x y| / (corrB x * corrB y)`,

which is rational: `corr x y > corr x' y'` iff `corrK x y > corrK x' y'`
(and the initial floor `best_correlation = -1` is its own image, since
`-1 * |-1| = -1`).  Every comparison below is done on `corrK`. -/

/-- Sum of pointwise products of two rational vectors. -/
def dotQ (xs ys : List ℚ) : ℚ :=
  (List.zipWith (fun a b => a * b) xs ys).sum

/-- Twelve times the covariance numerator of `np.corrcoef` on 12-vectors. -/
def corrA (xs ys : List ℚ) : ℚ :=
  12 * dotQ xs ys - xs.sum * ys.sum

/-- Twelve times the variance term of `np.corrcoef` on 12-vectors; the
correlation is NaN iff this vanishes for either argument. -/
def corrB (xs : List ℚ) : ℚ :=
  12 * dotQ xs xs - xs.sum ^ 2

/-- The strictly monotone rational image `corr * |corr|` of the Pearson
correlation of two 12-vectors (see the section comment). -/
def corrK (xs ys : List ℚ) : ℚ :=
  corrA xs ys * |corrA xs ys| / (corrB xs * corrB ys)

/-- Embeds `np.roll(template, k)` on a 12-element list: a cyclic right
shift by `k`. -/
def roll (l : List ℚ) (k : Nat) : List ℚ :=
  if l.length = 0 then l
  else l.drop (l.length - k % l.length) ++ l.take (l.length - k % l.length)

example : roll [1, 2, 3, 4] 1 = [4, 1, 2, 3] := by decide

/-- The running state of `np.argmax`: `i` is the index of the next element,
`bi`/`bv` the index and value of the first maximum so far. -/
def argmaxAux : List ℚ → Nat → Nat → ℚ → Nat
  | [], _, bi, _ => bi
  | x :: xs, i, bi, bv =>
    if bv < x then argmaxAux xs (i + 1) i x else argmaxAux xs (i + 1) bi bv

/-- Embeds `int(np.argmax(chroma_mean))` (source line 246): the first index
attaining the maximum. -/
def argmaxIdx : List ℚ → Nat
  | [] => 0
  | x :: xs => argmaxAux xs 1 0 x

example : argmaxIdx [3, 7, 2, 7] = 1 := by decide

/-- The seven scale-template names, in the iteration order of the source's
`scale_templates` dict (lines 262-270). -/
inductive Scale
  | ionian
  | dorian
  | phrygian
  | lydian
  | mixolydian
  | aeolian
  | locrian
deriving Repr, DecidableEq

/-- The Python dict key naming each scale template. -/
def Scale.pyName : Scale → String
  | .ionian => "Ionian (Major)"
  | .dorian => "Dorian"
  | .phrygian => "Phrygian"
  | .lydian => "Lydian"
  | .mixolydian => "Mixolydian"
  | .aeolian => "Aeolian (Minor)"
  | .locrian => "Locrian"

/-- The `scale_templates` dict (source lines 262-270), in iteration order. -/
def scaleTemplates : List (Scale × List ℚ) :=
  [(.ionian,     [1, 0, 1, 0, 1, 1, 0, 1, 0, 1, 0, 1]),
   (.dorian,     [1, 0, 1, 1, 0, 1, 0, 1, 0, 1, 1, 0]),
   (.phrygian,   [1, 1, 0, 1, 0, 1, 0, 1, 1, 0, 1, 0]),
   (.lydian,     [1, 0, 1, 0, 1, 0, 1, 1, 0, 1, 0, 1]),
   (.mixolydian, [1, 0, 1, 0, 1, 1, 0, 1, 0, 1, 1, 0]),
   (.aeolian,    [1, 0, 1, 1, 0, 1, 0, 1, 1, 0, 1, 0]),
   (.locrian,    [1, 1, 0, 1, 0, 1, 1, 0, 1, 0, 1, 0])]

/-- Embeds the best-scale loop (source lines 272-280): starting from
`best_scale = 'Ionian (Major)'`, `best_correlation = -1`, each template is
rotated by `k` and taken as the new best iff its correlation is defined
(`not np.isnan`) and strictly exceeds the current best.  Comparisons are on
the monotone image `corrK`; `-1` is a fixed point of `x * |x|`. -/
def bestScalePair (chroma : List ℚ) (k : Nat) : Scale × ℚ :=
  scaleTemplates.foldl
    (fun best c =>
      let rotated := roll c.2 k
      if (corrB chroma ≠ 0 ∧ corrB rotated ≠ 0) ∧ best.2 < corrK chroma rotated
      then (c.1, corrK chroma rotated) else best)
    (Scale.ionian, -1)

/-- `best_scale` as set by source line 282. -/
def bestScale (chroma : List ℚ) : Scale :=
  (bestScalePair chroma (argmaxIdx chroma)).1

/-- Character-list prefix test (helper for the substring test below). -/
def strPre : List Char → List Char → Bool
  | [], _ => true
  | _ :: _, [] => false
  | a :: as, b :: bs => a = b && strPre as bs

/-- Character-list substring test (helper for Python's `in` on strings). -/
def strSub (needle : List Char) : List Char → Bool
  | [] => strPre needle []
  | c :: cs => strPre needle (c :: cs) || strSub needle cs

/-- Embeds the mode decision (source lines 285-288):
`'Minor' in best_scale or best_scale in ['Dorian', 'Phrygian', 'Locrian']`. -/
def modeOf (best_scale : Scale) : String :=
  if strSub "Minor".toList best_scale.pyName.toList ||
      decide (best_scale.pyName ∈ ["Dorian", "Phrygian", "Locrian"])
  then "Minor" else "Major"

example : modeOf .aeolian = "Minor" := by decide
example : modeOf .ionian = "Major" := by decide
example : modeOf .locrian = "Minor" := by decide
example : modeOf .mixolydian = "Major" := by decide

/-- `KEY_NAMES` (source line 63), the twelve pitch-class names from C,
written as two halves. -/
def KEY_NAMES : List String :=
  ["C", "C#", "D", "D#", "E", "F"] ++ ["F#", "G", "G#", "A", "A#", "B"]

/-- The `chord_templates` dict (source lines 298-302), in iteration order. -/
def chordTemplates : List (String × List ℚ) :=
  [("Major", [1, 0, 0, 0, 1, 0, 0, 1, 0, 0, 0, 0]),
   ("Minor", [1, 0, 0, 1, 0, 0, 0, 1, 0, 0, 0, 0]),
   ("7th",   [1, 0, 0, 0, 1, 0, 0, 1, 0, 0, 1, 0])]

/-- Embeds the candidate-collection double loop (source lines 303-309):
for each pitch class in `KEY_NAMES` order and each quality in dict order,
the rotated template's correlation is collected (as its monotone image
`corrK`) with label `f"{key_name} {chord_type}"`, skipping NaN. -/
def possibleChords (chroma : List ℚ) : List (String × ℚ) :=
  (KEY_NAMES.enum.map fun ki =>
    chordTemplates.filterMap fun ct =>
      let rotated := roll ct.2 ki.1
      if corrB chroma ≠ 0 ∧ corrB rotated ≠ 0 then
        some (ki.2 ++ " " ++ ct.1, corrK chroma rotated)
      else none).flatten

/-- The stable descending order used to model Python's
`sort(key=lambda x: x[1], reverse=True)`: `List.insertionSort` with the
total preorder "key not below" is a stable sort, hence extensionally equal
to Python's stable sort under the reversed key comparison. -/
def chordGE (p q : String × ℚ) : Prop := q.2 ≤ p.2

instance : DecidableRel chordGE := fun p q => inferInstanceAs (Decidable (q.2 ≤ p.2))

/-- Embeds source lines 310-311: stable descending sort by correlation,
then the first four labels. -/
def topChords (chroma : List ℚ) : List String :=
  ((List.insertionSort chordGE (possibleChords chroma)).take 4).map Prod.fst

/-- The exact C-Major chord profile at pitch class 0. -/
def chromaCMajor : List ℚ := [1, 0, 0, 0, 1, 0, 0, 1, 0, 0, 0, 0]

/-! ## `analyze_music`: result record and the unavailable-library path -/

/-- The analysis dictionary built by `analyze_music` (source lines 219-232),
as far as its shape is fixed: `instrument_chords` maps instrument names to
label-fingering pairs. -/
structure AnalysisResult where
  key : String
  mode : String
  scale : String
  tempo : ℚ
  time_signature : String
  duration : ℚ
  energy : String
  possible_chords : List String
  instrument_chords : List (String × List (String × String))
  instruments : List String
  genre_hints : List String
  analysis_available : Bool
  error : Option String
deriving Repr, DecidableEq

/-- The initial dictionary of source lines 219-232. -/
def initialAnalysis : AnalysisResult :=
  { key := "Unknown"
    mode := "Unknown"
    scale := "Unknown"
    tempo := 0
    time_signature := "4/4"
    duration := 0
    energy := "Medium"
    possible_chords := []
    instrument_chords := []
    instruments := []
    genre_hints := []
    analysis_available := false
    error := none }

/-- Embeds the control flow of `analyze_music` (source lines 218-236): when
the analysis library is unavailable the initial dictionary gains an `error`
entry and is returned unchanged; otherwise the `try` block (whose inputs
all come from the external signal-analysis collaborator) updates it, which
the model represents by an arbitrary update function. -/
def analyze_music (librosaAvailable : Bool)
    (tryBlock : AnalysisResult → AnalysisResult) : AnalysisResult :=
  if !librosaAvailable then
    { initialAnalysis with error := some "Music analysis library not available" }
  else tryBlock initialAnalysis

/-! ## Lemmas about the sampler loop -/

/-- The untruncated run of the sampler from an aligned index: one decoded
point, then a stride of `detail` iterations, until the `fuel` runs out.
`sampleLoop` agrees with it whenever no read truncates
(`sampleLoop_eq_idealRun`). -/
def idealRun (file : List Nat) (bps skip detail : Nat) (height : Nat) :
    Nat → Nat → List Nat
  | _, 0 => []
  | pos, fuel + 1 =>
      decodeSample file pos bps * height / 255 ::
        idealRun file bps skip detail height (pos + detail * (bps + skip))
          (fuel - (detail - 1))
termination_by _ fuel => fuel
decreasing_by
  simp_wf
  omega

/-- After an index aligned to the stride, the next offsets are not aligned
until the stride is complete. -/
theorem aligned_shift_mod (i t detail : Nat)
    (hi : i % detail = 0) : (i + t) % detail = t % detail := by
  rw [Nat.add_mod, hi, Nat.zero_add, Nat.mod_mod_of_dvd t dvd_rfl]

/-- A run of `s` consecutive non-aligned indices only seeks. -/
theorem sampleLoop_skips (file : List Nat) (bps skip height detail : Nat) :
    ∀ (s fuel pos i : Nat), s ≤ fuel → (∀ t, t < s → (i + t) % detail ≠ 0) →
      sampleLoop file bps skip height detail fuel pos i =
        sampleLoop file bps skip height detail (fuel - s) (pos + s * (skip + bps))
          (i + s) := by
  intro s
  induction s with
  | zero => intro fuel pos i _ _; simp
  | succ s ih =>
    intro fuel pos i hs hskip
    obtain ⟨fuel0, rfl⟩ : ∃ fuel0, fuel = fuel0 + 1 := ⟨fuel - 1, by omega⟩
    have h0 : i % detail ≠ 0 := by simpa using hskip 0 (Nat.succ_pos s)
    have step : sampleLoop file bps skip height detail (fuel0 + 1) pos i =
        sampleLoop file bps skip height detail fuel0 (pos + skip + bps) (i + 1) := by
      simp [sampleLoop, h0]
    rw [step, ih fuel0 (pos + skip + bps) (i + 1) (by omega)
      (fun t ht => by
        have := hskip (t + 1) (by omega)
        simpa [Nat.add_assoc, Nat.add_comm 1 t] using this)]
    have hm : (s + 1) * (skip + bps) = s * (skip + bps) + (skip + bps) :=
      Nat.succ_mul s (skip + bps)
    congr 1 <;> omega

/-- When no read inside the window truncates, the sampler from an aligned
index is the ideal run. -/
theorem sampleLoop_eq_idealRun (file : List Nat) (bps skip height detail : Nat)
    (hD : 0 < detail) :
    ∀ (fuel pos i : Nat), i % detail = 0 →
      (∀ t, t < fuel → (i + t) % detail = 0 →
        bps ≤ file.length - (pos + t * (bps + skip))) →
      sampleLoop file bps skip height detail fuel pos i =
        idealRun file bps skip detail height pos fuel := by
  intro fuel
  induction fuel using Nat.strong_induction_on with
  | _ fuel ih =>
    intro pos i hi hok
    match fuel with
    | 0 => simp [sampleLoop, idealRun]
    | fuel0 + 1 =>
      have hread : ¬ file.length - pos < bps := by
        have := hok 0 (Nat.succ_pos _) (by simpa using hi)
        omega
      have step : sampleLoop file bps skip height detail (fuel0 + 1) pos i =
          decodeSample file pos bps * height / 255 ::
            sampleLoop file bps skip height detail fuel0 (pos + bps + skip) (i + 1) := by
        simp [sampleLoop, hi, hread]
      rw [step]
      rw [idealRun]
      congr 1
      have hnotal : ∀ t, 1 + t < detail → (i + 1 + t) % detail ≠ 0 := by
        intro t ht
        rw [Nat.add_assoc, aligned_shift_mod i (1 + t) detail hi,
          Nat.mod_eq_of_lt ht]
        omega
      rcases Nat.lt_or_ge fuel0 (detail - 1) with hlt | hge
      · -- the fuel runs out during the skip stride: both sides are empty
        have hfuel0 : fuel0 - (detail - 1) = 0 := by omega
        rw [hfuel0]
        rw [sampleLoop_skips file bps skip height detail fuel0 fuel0
          (pos + bps + skip) (i + 1) le_rfl (fun t ht => hnotal t (by omega))]
        rw [Nat.sub_self]
        rw [sampleLoop, idealRun]
      · -- a full stride of `detail - 1` skips, then recurse
        rw [sampleLoop_skips file bps skip height detail (detail - 1) fuel0
          (pos + bps + skip) (i + 1) hge (fun t ht => hnotal t (by omega))]
        have hmul : detail * (bps + skip) = (detail - 1) * (bps + skip) + (bps + skip) := by
          have h3 : detail - 1 + 1 = detail := by omega
          calc detail * (bps + skip) = (detail - 1 + 1) * (bps + skip) := by rw [h3]
            _ = (detail - 1) * (bps + skip) + (bps + skip) := Nat.succ_mul _ _
        have hco : (detail - 1) * (skip + bps) = (detail - 1) * (bps + skip) := by
          rw [Nat.add_comm]
        have hpos : pos + bps + skip + (detail - 1) * (skip + bps) =
            pos + detail * (bps + skip) := by omega
        have hidx : i + 1 + (detail - 1) = i + detail := by omega
        rw [hpos, hidx]
        apply ih (fuel0 - (detail - 1)) (by omega) _ (i + detail)
        · rw [aligned_shift_mod i detail detail hi, Nat.mod_self]
        · intro t ht htal
          have halign : (i + (detail + t)) % detail = 0 := by
            rw [← Nat.add_assoc]
            exact htal
          have := hok (detail + t) (by omega) halign
          have hdist : (detail + t) * (bps + skip) =
              detail * (bps + skip) + t * (bps + skip) :=
            Nat.add_mul detail t (bps + skip)
          omega

/-- Length of the ideal run: the ceiling `⌈fuel / detail⌉`. -/
theorem idealRun_length (file : List Nat) (bps skip detail height : Nat)
    (hD : 0 < detail) :
    ∀ (fuel pos : Nat),
      (idealRun file bps skip detail height pos fuel).length =
        (fuel + detail - 1) / detail := by
  intro fuel
  induction fuel using Nat.strong_induction_on with
  | _ fuel ih =>
    intro pos
    match fuel with
    | 0 =>
      rw [idealRun]
      have h0 : (detail - 1) / detail = 0 := Nat.div_eq_of_lt (by omega)
      simp [h0]
    | fuel0 + 1 =>
      rw [idealRun]
      simp only [List.length_cons]
      rw [ih (fuel0 - (detail - 1)) (by omega)]
      rcases Nat.lt_or_ge fuel0 (detail - 1) with hlt | hge
      · have h1 : fuel0 - (detail - 1) = 0 := by omega
        rw [h1]
        rw [Nat.div_eq_of_lt (by omega)]
        have h2 : (fuel0 + 1 + detail - 1) / detail = 1 := by
          apply Nat.div_eq_of_lt_le <;> omega
        omega
      · have h1 : fuel0 - (detail - 1) + detail - 1 = fuel0 := by omega
        have h2 : fuel0 + 1 + detail - 1 = fuel0 + detail := by omega
        rw [h1, h2, Nat.add_div_right fuel0 hD]

/-- The `j`-th element of the ideal run sits `j * detail` strides along. -/
theorem idealRun_getD (file : List Nat) (bps skip detail height : Nat)
    (hD : 0 < detail) :
    ∀ (j fuel pos : Nat), j * detail < fuel →
      (idealRun file bps skip detail height pos fuel).getD j 0 =
        decodeSample file (pos + j * detail * (bps + skip)) bps * height / 255 := by
  intro j
  induction j with
  | zero =>
    intro fuel pos hj
    match fuel with
    | fuel0 + 1 =>
      rw [idealRun]
      simp
  | succ j ih =>
    intro fuel pos hj
    match fuel with
    | fuel0 + 1 =>
      rw [idealRun]
      simp only [List.getD_cons_succ]
      have hlt : j * detail < fuel0 - (detail - 1) := by
        have h1 : (j + 1) * detail = j * detail + detail := by ring
        rw [h1] at hj
        omega
      rw [ih (fuel0 - (detail - 1)) (pos + detail * (bps + skip)) hlt]
      have harith : pos + detail * (bps + skip) + j * detail * (bps + skip) =
          pos + (j + 1) * detail * (bps + skip) := by
        have h2 : (j + 1) * detail = j * detail + detail := Nat.succ_mul j detail
        rw [h2, Nat.add_mul, Nat.add_assoc, Nat.add_comm (j * detail * (bps + skip))]
      rw [harith]

/-- Every point the sampler emits is a decoded value scaled by
`height / 255`, hence at most `height` once all bytes are below 256. -/
theorem sampleLoop_mem_le (file : List Nat) (bps skip height detail : Nat)
    (hbytes : ∀ b ∈ file, b ≤ 255) :
    ∀ (fuel pos i : Nat), ∀ v ∈ sampleLoop file bps skip height detail fuel pos i,
      v ≤ height := by
  have hgetD : ∀ p : Nat, file.getD p 0 ≤ 255 := by
    intro p
    rcases Nat.lt_or_ge p file.length with hp | hp
    · rw [List.getD_eq_getElem file 0 hp]
      exact hbytes _ (List.getElem_mem hp)
    · rw [List.getD_eq_default file 0 hp]
      omega
  have hdec : ∀ (pos : Nat), decodeSample file pos bps ≤ 255 := by
    intro pos
    by_cases h1 : bps = 1
    · subst h1
      simpa [decodeSample] using hgetD pos
    · by_cases h2 : bps = 2
      · subst h2
        have hunf : decodeSample file pos 2 =
            find_values (file.getD pos 0) ((file.getD (pos + 1) 0 &&& 127) +
              (if file.getD (pos + 1) 0 &&& 128 ≠ 0 then 0 else 128)) / 256 := rfl
        rw [hunf]
        have h127 : file.getD (pos + 1) 0 &&& 127 ≤ 127 := Nat.and_le_right
        have hb1 := hgetD pos
        unfold find_values
        split <;> omega
      · simp [decodeSample, h1, h2]
  intro fuel
  induction fuel with
  | zero => intro pos i v hv; simp [sampleLoop] at hv
  | succ fuel ih =>
    intro pos i v hv
    rw [sampleLoop] at hv
    split at hv
    · split at hv
      · simp at hv
      · rcases List.mem_cons.mp hv with rfl | hv
        · calc decodeSample file pos bps * height / 255
              ≤ 255 * height / 255 :=
                Nat.div_le_div_right (Nat.mul_le_mul_right height (hdec pos))
            _ = height := by omega
        · exact ih _ _ _ hv
    · exact ih _ _ _ hv

/-- Over an all-zero payload region a two-byte sampler only ever emits
`128 * height / 255`. -/
theorem sampleLoop_zero_payload (file : List Nat) (skip height detail : Nat)
    (hz : ∀ p, p < file.length → 44 ≤ p → file.getD p 0 = 0) :
    ∀ (fuel pos i : Nat), 44 ≤ pos →
      ∀ v ∈ sampleLoop file 2 skip height detail fuel pos i,
        v = 128 * height / 255 := by
  intro fuel
  induction fuel with
  | zero => intro pos i _ v hv; simp [sampleLoop] at hv
  | succ fuel ih =>
    intro pos i hpos v hv
    rw [sampleLoop] at hv
    split at hv
    · split at hv
      · simp at hv
      · rcases List.mem_cons.mp hv with rfl | hv
        · have hlen : pos + 2 ≤ file.length := by omega
          have hb1 : file.getD pos 0 = 0 := hz pos (by omega) hpos
          have hb2 : file.getD (pos + 1) 0 = 0 := hz (pos + 1) (by omega) (by omega)
          have hdec : decodeSample file pos 2 = 128 := by
            have hunf : decodeSample file pos 2 =
                find_values (file.getD pos 0) ((file.getD (pos + 1) 0 &&& 127) +
                  (if file.getD (pos + 1) 0 &&& 128 ≠ 0 then 0 else 128)) / 256 := rfl
            rw [hunf, hb1, hb2]
            decide
          rw [hdec]
        · exact ih _ _ (by omega) _ hv
    · exact ih _ _ (by omega) _ hv

/-! ## Claims about the sampler -/

/-- The per-sample byte value followed by the pixel conversion, exactly as
claim C4 words it: a 2-byte sample is
`(low + ((high & 0x7F) + (0 if the top bit of high is set else 128)) * 256) // 256`,
a 1-byte sample is the raw byte, any other width is 128; the pixel height
is `floor(value / 255 * H)`. -/
def claimedSampleValue (file : List Nat) (p bps height : Nat) : Nat :=
  (if bps = 2 then
    (file.getD p 0 + ((file.getD (p + 1) 0 &&& 127) +
      (if file.getD (p + 1) 0 &&& 128 ≠ 0 then 0 else 128)) * 256) / 256
  else if bps = 1 then file.getD p 0
  else 128) * height / 255

/-- The decoder of the source computes exactly the claim's formula. -/
theorem decodeSample_eq_claimed (file : List Nat) (p bps height : Nat) :
    decodeSample file p bps * height / 255 = claimedSampleValue file p bps height := by
  unfold decodeSample claimedSampleValue find_values
  by_cases h1 : bps = 1
  · subst h1
    simp
  · by_cases h2 : bps = 2
    · subst h2
      simp
    · simp [h1, h2]

/-- C4: For every retained 2-byte sample with low byte `low` and high byte
`high`, the sampler computes the byte value as
`(low + ((high & 0x7F) + (0 if the top bit of high is set else 128)) * 256) // 256`,
and for every retained sample it appends the pixel height
`v = floor(value / 255 * H)`; 1-byte samples use the raw unsigned byte and
any other sample width uses the neutral value 128.  Stated over the output
of `process_wav_file`: assuming no read truncates, the `j`-th retained
point is the claim's formula applied to the bytes at stream offset
`44 + (j · D) · (ratio + byte_per_sample)`. -/
theorem process_wav_file_sample_formula (file : List Nat) (height detail : Nat)
    (header : WavHeader) (hD : 0 < detail)
    (hp : parse_wav_header file = some header)
    (noTrunc : ∀ i, i < dataSizeOf file header → i % detail = 0 →
      bytePerSample header ≤
        file.length - (44 + i * (ratioOf header + bytePerSample header))) :
    ∀ j, j * detail < dataSizeOf file header →
      ((process_wav_file file height detail).getD []).getD j 0 =
        claimedSampleValue file
          (44 + j * detail * (ratioOf header + bytePerSample header))
          (bytePerSample header) height := by
  intro j hj
  have hrun : process_wav_file file height detail =
      some (sampleLoop file (bytePerSample header) (ratioOf header) height detail
        (dataSizeOf file header) 44 0) := by
    unfold process_wav_file
    rw [hp]
  rw [hrun]
  rw [Option.getD_some]
  rw [sampleLoop_eq_idealRun file (bytePerSample header) (ratioOf header) height
    detail hD (dataSizeOf file header) 44 0 (Nat.zero_mod detail)
    (fun t ht htal => by
      have := noTrunc t ht (by simpa using htal)
      rw [Nat.add_comm (bytePerSample header) (ratioOf header)]
      exact this)]
  rw [idealRun_getD file (bytePerSample header) (ratioOf header) detail height hD j
    (dataSizeOf file header) 44 hj]
  rw [Nat.add_comm (bytePerSample header) (ratioOf header)]
  exact decodeSample_eq_claimed file _ _ height

/-- C5: With stride `D > 0` and no truncating read, `process_wav_file`
returns exactly `⌈N / D⌉` amplitude points (written `(N + D - 1) / D`),
where `N = (file_size - 44) / (ratio + byte_per_sample) + 1` is
`dataSizeOf` and `ratio` is 40 for a 2-channel header, else 80. -/
theorem process_wav_file_length (file : List Nat) (height detail : Nat)
    (header : WavHeader) (hD : 0 < detail)
    (hp : parse_wav_header file = some header)
    (noTrunc : ∀ i, i < dataSizeOf file header → i % detail = 0 →
      bytePerSample header ≤
        file.length - (44 + i * (ratioOf header + bytePerSample header))) :
    ((process_wav_file file height detail).getD []).length =
      ((file.length - 44) / ((if header.num_channels = 2 then 40 else 80) +
        header.bits_per_sample / 8) + 1 + detail - 1) / detail := by
  have hrun : process_wav_file file height detail =
      some (sampleLoop file (bytePerSample header) (ratioOf header) height detail
        (dataSizeOf file header) 44 0) := by
    unfold process_wav_file
    rw [hp]
  rw [hrun]
  rw [Option.getD_some]
  rw [sampleLoop_eq_idealRun file (bytePerSample header) (ratioOf header) height
    detail hD (dataSizeOf file header) 44 0 (Nat.zero_mod detail)
    (fun t ht htal => by
      have := noTrunc t ht (by simpa using htal)
      rw [Nat.add_comm (bytePerSample header) (ratioOf header)]
      exact this)]
  rw [idealRun_length file (bytePerSample header) (ratioOf header) detail height hD
    (dataSizeOf file header) 44]
  rfl

/-- C10: Every amplitude point of `process_wav_file` lies between 0 and the
target height, because the decoded byte value lies in 0..255 (the lower
bound is the type `Nat`). -/
theorem process_wav_file_bounded (file : List Nat) (height detail : Nat)
    (hbytes : ∀ b ∈ file, b ≤ 255) (points : List Nat)
    (hp : process_wav_file file height detail = some points) :
    ∀ v ∈ points, v ≤ height := by
  unfold process_wav_file at hp
  cases hparse : parse_wav_header file with
  | none => rw [hparse] at hp; exact absurd hp (by simp)
  | some header =>
    rw [hparse] at hp
    have hpts : points = sampleLoop file (bytePerSample header) (ratioOf header)
        height detail (dataSizeOf file header) 44 0 := by
      exact (Option.some_injective _ hp).symm
    rw [hpts]
    exact sampleLoop_mem_le file (bytePerSample header) (ratioOf header) height
      detail hbytes (dataSizeOf file header) 44 0

/-- The header that `parse_wav_header` extracts from `zeroFile n`. -/
def zeroFileHeader : WavHeader :=
  { chunk_id := [82, 73, 70, 70]
    chunk_size := 0
    format := [87, 65, 86, 69]
    subchunk1_id := [102, 109, 116, 32]
    subchunk1_size := 16
    audio_format := 1
    num_channels := 1
    sample_rate := 8000
    byte_rate := 16000
    block_align := 2
    bits_per_sample := 16
    subchunk2_id := [100, 97, 116, 97]
    subchunk2_size := 0 }

example : parse_wav_header (zeroFile 84) = some zeroFileHeader := by decide

/-- Witness for C4 at the concrete all-zero file: the first retained point
equals the claim's formula at offset 44. -/
theorem process_wav_file_sample_formula_witness :
    ((process_wav_file (zeroFile 84) 100 5).getD []).getD 0 0 =
      claimedSampleValue (zeroFile 84)
        (44 + 0 * 5 * (ratioOf zeroFileHeader + bytePerSample zeroFileHeader))
        (bytePerSample zeroFileHeader) 100 :=
  process_wav_file_sample_formula (zeroFile 84) 100 5 zeroFileHeader
    (by decide) (by decide) (by decide) 0 (by decide)

/-- Witness for C5 at the concrete all-zero file: `N = 2`, `D = 5`,
`⌈2/5⌉ = 1` point. -/
theorem process_wav_file_length_witness :
    ((process_wav_file (zeroFile 84) 100 5).getD []).length =
      (((zeroFile 84).length - 44) / ((if zeroFileHeader.num_channels = 2
        then 40 else 80) + zeroFileHeader.bits_per_sample / 8) + 1 + 5 - 1) / 5 :=
  process_wav_file_length (zeroFile 84) 100 5 zeroFileHeader
    (by decide) (by decide) (by decide)

/-- Witness for C10 at the concrete all-zero file: its one point, 50, is at
most the height 100. -/
theorem process_wav_file_bounded_witness : (50 : Nat) ≤ 100 :=
  process_wav_file_bounded (zeroFile 84) 100 5 (by decide) [50] (by decide)
    50 (by decide)

/-- Counterexample to C1: for the all-zero mono 16-bit payload `zeroFile 84`
with height 100, the amplitude series is `[50]`, not all zeros, and with
`draw_flat = false` its only column is suppressed by the flat-line test, so
no foreground line is painted. -/
theorem zero_payload_series_not_zero :
    (process_wav_file (zeroFile 84) 100 5).getD [] = [50] ∧
    ¬ (∀ v ∈ (process_wav_file (zeroFile 84) 100 5).getD [], v = 0) ∧
    channelLines ((process_wav_file (zeroFile 84) 100 5).getD []) 100 0 false = [] := by
  refine ⟨by decide, ?_, by decide⟩
  intro hall
  exact absurd (hall 50 (by decide)) (by decide)

/-- If every column is suppressed, the channel paints nothing. -/
theorem channelLines_eq_nil (pts : List Nat) (height y_offset : Nat) (df : Bool)
    (h : ∀ v ∈ pts, columnKept v height df = false) :
    channelLines pts height y_offset df = [] := by
  unfold channelLines
  rw [List.filterMap_eq_nil_iff]
  intro p hp
  have hv : p.2 ∈ pts := by
    have hmap : p.2 ∈ pts.enum.map Prod.snd := List.mem_map_of_mem Prod.snd hp
    rwa [List.enum_map_snd] at hmap
  simp [h p.2 hv]

/-- C1 amended: for a mono 16-bit payload of all-zero samples with target
height 100, every value of the amplitude series equals 50 (the unsigned
midpoint 128 scaled to the height), and when rendered with
`draw_flat = false` every column is suppressed by the flat-line test
(`50 / 100 = 0.5`), so no foreground line is painted. -/
theorem zero_payload_series_all_50 (file : List Nat) (header : WavHeader)
    (detail : Nat)
    (hp : parse_wav_header file = some header)
    (_hch : header.num_channels = 1) (hbits : header.bits_per_sample = 16)
    (hz : ∀ p, p < file.length → 44 ≤ p → file.getD p 0 = 0) :
    (∀ v ∈ (process_wav_file file 100 detail).getD [], v = 50) ∧
    channelLines ((process_wav_file file 100 detail).getD []) 100 0 false = [] := by
  have hbps : bytePerSample header = 2 := by simp [bytePerSample, hbits]
  have hrun : process_wav_file file 100 detail =
      some (sampleLoop file 2 (ratioOf header) 100 detail
        (dataSizeOf file header) 44 0) := by
    simp only [process_wav_file, hp, hbps]
  have h50 : ∀ v ∈ (process_wav_file file 100 detail).getD [], v = 50 := by
    rw [hrun, Option.getD_some]
    intro v hv
    have := sampleLoop_zero_payload file (ratioOf header) 100 detail hz
      (dataSizeOf file header) 44 0 le_rfl v hv
    omega
  refine ⟨h50, channelLines_eq_nil _ 100 0 false ?_⟩
  intro v hv
  rw [h50 v hv]
  decide

/-- Witness for the amended C1 at the concrete all-zero file. -/
theorem zero_payload_series_all_50_witness :
    channelLines ((process_wav_file (zeroFile 84) 100 5).getD []) 100 0 false = [] :=
  (zero_payload_series_all_50 (zeroFile 84) zeroFileHeader 5
    (by decide) (by decide) (by decide) (by decide)).2

/-! ## Claims about the renderer -/

/-- A background-parsing failure is always the color error. -/
theorem parseBackground_error_eq (bg : String) (e : GenError)
    (h : parseBackground bg = .error e) : e = .invalidColor := by
  unfold parseBackground at h
  by_cases hbg : bg = ""
  · rw [if_pos hbg] at h
    exact absurd h (by simp)
  · rw [if_neg hbg] at h
    cases hc : html2rgb bg with
    | some c => rw [hc] at h; exact absurd h (by simp)
    | none =>
      rw [hc] at h
      simp only [Except.error.injEq] at h
      exact h.symm

/-- A foreground-parsing failure is always the color error. -/
theorem parseForeground_error_eq (fg : String) (e : GenError)
    (h : parseForeground fg = .error e) : e = .invalidColor := by
  unfold parseForeground at h
  by_cases hfg : fg = ""
  · rw [if_pos hfg] at h
    exact absurd h (by simp)
  · rw [if_neg hfg] at h
    cases hc : html2rgb fg with
    | some c => rw [hc] at h; exact absurd h (by simp)
    | none =>
      rw [hc] at h
      simp only [Except.error.injEq] at h
      exact h.symm

/-- Once the dimension, header and no-data gates have passed, the renderer
is the color-parsing-then-paint-then-resize tail. -/
theorem generate_tail (wav_files : List (List Nat)) (width height : Nat)
    (fg bg : String) (df : Bool) (all : List (List Nat))
    (hw : width ≠ 0) (hh : height ≠ 0)
    (hall : allPoints wav_files height DETAIL = some all)
    (hnd : ¬(all = [] ∨ all.headD [] = [])) :
    generate_waveform_image wav_files width height fg bg df =
      match parseBackground bg with
      | .error e => .error e
      | .ok bgv =>
        match parseForeground fg with
        | .error e => .error e
        | .ok fgv =>
          let lines := (all.enum.map fun ch =>
            channelLines ch.2 height (height * ch.1) df).flatten
          let img : WaveImage :=
            ⟨(all.headD []).length, height * wav_files.length, bgv, fgv, lines⟩
          if width ≠ (all.headD []).length then
            .ok { img with width := width, height := height }
          else .ok img := by
  unfold generate_waveform_image
  rw [if_neg hh, if_neg hw]
  simp only [hall]
  rw [if_neg hnd]

/-- C2 (the code's actual behavior at the failing input): two channels with
natural width 1 and per-channel height 100, requested width 10; the
returned canvas is 10 × 100, not 10 × 200 — the resize replaces the
stacked-channel height `total_height` with the single-channel `height`. -/
theorem generate_resize_collapses_height :
    (generate_waveform_image [zeroFile 84, zeroFile 84] 10 100 "FF0000" "FFFFFF"
        false).toOption.map (fun img => (img.width, img.height)) =
      some (10, 100) ∧ (100 : Nat) ≠ 100 * 2 :=
  ⟨by decide, by decide⟩

/-- Counterexample to C3: the second channel's amplitude series is empty
(a header-only file), yet `generate_waveform_image` succeeds instead of
failing with the no-data error, because the check looks only at the first
channel. -/
theorem noData_ignores_second_channel :
    process_wav_file monoHeader 100 5 = some [] ∧
    (generate_waveform_image [zeroFile 84, monoHeader] 500 100 "FF0000" "FFFFFF"
      false).isOk = true :=
  ⟨by decide, by decide⟩

/-- C3 amended: once both dimensions are positive and every file's header
parses, `generate_waveform_image` fails with the no-data error iff the
extracted series list is empty (no input files) or the FIRST channel's
series is empty; an empty series in a later channel is not detected. -/
theorem generate_noData_iff (wav_files : List (List Nat)) (width height : Nat)
    (fg bg : String) (df : Bool) (all : List (List Nat))
    (hw : width ≠ 0) (hh : height ≠ 0)
    (hall : allPoints wav_files height DETAIL = some all) :
    (generate_waveform_image wav_files width height fg bg df =
      .error .noData) ↔ (all = [] ∨ all.headD [] = []) := by
  constructor
  · intro h
    by_contra hnd
    rw [generate_tail wav_files width height fg bg df all hw hh hall hnd] at h
    cases hbg : parseBackground bg with
    | error e =>
      rw [hbg] at h
      have he := parseBackground_error_eq bg e hbg
      simp [he] at h
    | ok bgv =>
      rw [hbg] at h
      cases hfg : parseForeground fg with
      | error e =>
        rw [hfg] at h
        have he := parseForeground_error_eq fg e hfg
        simp [he] at h
      | ok fgv =>
        rw [hfg] at h
        simp only at h
        split at h <;> simp at h
  · intro h
    unfold generate_waveform_image
    rw [if_neg hh, if_neg hw]
    simp only [hall]
    rw [if_pos h]

/-- Witness for the amended C3: a single header-only file has an empty
first series, and the call fails with the no-data error. -/
theorem generate_noData_iff_witness :
    generate_waveform_image [monoHeader] 500 100 "FF0000" "FFFFFF" false =
      .error .noData :=
  (generate_noData_iff [monoHeader] 500 100 "FF0000" "FFFFFF" false [[]]
    (by decide) (by decide) (by decide)).mpr (by decide)

/-! ## Claims about color parsing -/

/-- The claim's color-validity predicate, written from the claim's words:
after removing a single optional leading hash, exactly six hexadecimal
digits remain. -/
def specHexColor (s : String) : Bool :=
  let l := if s.toList.headD ' ' = '#' then s.toList.tail else s.toList
  decide (l.length = 6) && l.all hexDigit

/-- The acceptance predicate of the code, written from the amended claim's
words: after removing EVERY leading hash exactly six characters remain and
each two-character slice is accepted by Python's base-16 `int` (two hex
digits, or one hex digit padded by whitespace or preceded by a sign). -/
def pyColorAccepted (s : String) : Bool :=
  match s.toList.dropWhile (fun c => c = '#') with
  | [a, b, c, d, e, f] =>
      (pyHexPair a b).isSome && (pyHexPair c d).isSome && (pyHexPair e f).isSome
  | _ => false

/-- Counterexample to C9: `"##ABCDEF"` is not a 6-hex-digit value after the
single optional hash, yet `html2rgb` accepts it, because `lstrip('#')`
removes every leading hash. -/
theorem html2rgb_accepts_repeated_hash :
    html2rgb "##ABCDEF" = some (171, 205, 239) ∧
      specHexColor "##ABCDEF" = false :=
  ⟨by decide, by decide⟩

/-- A hexadecimal digit is not the hash character. -/
theorem hexDigit_ne_hash (c : Char) (h : hexDigit c = true) : c ≠ '#' := by
  intro hc
  subst hc
  exact absurd h (by decide)

/-- Dropping leading hashes does nothing to a string of hex digits. -/
theorem dropWhile_hash_of_hex (l : List Char) (h : l.all hexDigit = true) :
    l.dropWhile (fun c => c = '#') = l := by
  cases l with
  | nil => rfl
  | cons c cs =>
    have hc : hexDigit c = true := by
      have := List.all_eq_true.mp h c (List.mem_cons_self c cs)
      exact this
    rw [List.dropWhile_cons_of_neg]
    simp only [decide_eq_true_eq]
    exact hexDigit_ne_hash c hc

/-- A list of length six is six elements. -/
theorem list_six {α : Type} (l : List α) (h : l.length = 6) :
    ∃ a b c d e f, l = [a, b, c, d, e, f] := by
  match l, h with
  | [a, b, c, d, e, f], _ => exact ⟨a, b, c, d, e, f, rfl⟩

/-- Two hex digits always parse. -/
theorem pyHexPair_of_hex (a b : Char) (ha : hexDigit a = true)
    (hb : hexDigit b = true) :
    pyHexPair a b = some (16 * (hexVal a : Int) + hexVal b) := by
  unfold pyHexPair
  rw [if_pos (by rw [ha, hb]; rfl)]

/-- C9 amended: `html2rgb` accepts every string that is six hex digits
after one optional leading hash (so the claim's success direction holds),
but its exact acceptance set is `pyColorAccepted`: ALL leading hashes are
stripped, and each 2-character slice may also be a whitespace-padded or
signed single hex digit; on a failing background color the rendering call
fails with the color error before any canvas is returned. -/
theorem html2rgb_characterization :
    (∀ s : String, specHexColor s = true → (html2rgb s).isSome = true) ∧
    (∀ s : String, (html2rgb s).isSome = true ↔ pyColorAccepted s = true) ∧
    (∀ (wav_files : List (List Nat)) (width height : Nat) (fg bg : String)
      (df : Bool) (all : List (List Nat)),
      width ≠ 0 → height ≠ 0 →
      allPoints wav_files height DETAIL = some all →
      ¬(all = [] ∨ all.headD [] = []) →
      bg ≠ "" → html2rgb bg = none →
      generate_waveform_image wav_files width height fg bg df =
        .error .invalidColor) := by
  refine ⟨?_, ?_, ?_⟩
  · -- success direction of the original claim
    intro s hs
    simp only [specHexColor, Bool.and_eq_true, decide_eq_true_eq] at hs
    by_cases hh : s.toList.headD ' ' = '#'
    · rw [if_pos hh] at hs
      obtain ⟨hlen, hhex⟩ := hs
      cases hl : s.toList with
      | nil => rw [hl] at hh; exact absurd hh (by decide)
      | cons c cs =>
        rw [hl] at hh hlen hhex
        simp only [List.headD_cons] at hh
        simp only [List.tail_cons] at hlen hhex
        have hdrop : s.toList.dropWhile (fun x => x = '#') = cs := by
          rw [hl, List.dropWhile_cons_of_pos (by simp [hh]),
            dropWhile_hash_of_hex cs hhex]
        obtain ⟨a, b, c2, d, e, f, rfl⟩ := list_six cs hlen
        simp only [List.all_cons, Bool.and_eq_true, List.all_nil] at hhex
        unfold html2rgb
        rw [hdrop]
        simp [pyHexPair_of_hex a b hhex.1 hhex.2.1,
          pyHexPair_of_hex c2 d hhex.2.2.1 hhex.2.2.2.1,
          pyHexPair_of_hex e f hhex.2.2.2.2.1 hhex.2.2.2.2.2.1]
    · rw [if_neg hh] at hs
      obtain ⟨hlen, hhex⟩ := hs
      have hdrop : s.toList.dropWhile (fun x => x = '#') = s.toList :=
        dropWhile_hash_of_hex s.toList hhex
      obtain ⟨a, b, c2, d, e, f, hl⟩ := list_six s.toList hlen
      rw [hl] at hdrop hhex
      simp only [List.all_cons, Bool.and_eq_true, List.all_nil] at hhex
      unfold html2rgb
      rw [hl, hdrop]
      simp [pyHexPair_of_hex a b hhex.1 hhex.2.1,
        pyHexPair_of_hex c2 d hhex.2.2.1 hhex.2.2.2.1,
        pyHexPair_of_hex e f hhex.2.2.2.2.1 hhex.2.2.2.2.2.1]
  · -- exact characterization
    intro s
    unfold html2rgb pyColorAccepted
    generalize s.toList.dropWhile (fun c => c = '#') = l
    rcases l with _ | ⟨a, _ | ⟨b, _ | ⟨c, _ | ⟨d, _ | ⟨e, _ | ⟨f, _ | ⟨g, rest⟩⟩⟩⟩⟩⟩⟩
    · simp
    · simp
    · simp
    · simp
    · simp
    · simp
    · cases hab : pyHexPair a b <;> cases hcd : pyHexPair c d <;>
        cases hef : pyHexPair e f <;> simp [hab, hcd, hef]
    · simp
  · -- error ordering in the renderer
    intro wav_files width height fg bg df all hw hh hall hnd hbgne hbgp
    rw [generate_tail wav_files width height fg bg df all hw hh hall hnd]
    have hbg : parseBackground bg = .error .invalidColor := by
      unfold parseBackground
      rw [if_neg hbgne, hbgp]
    rw [hbg]

/-- Witness for the amended C9 at concrete colors: a single-hash hex color
is accepted, and an invalid background color aborts rendering with the
color error. -/
theorem html2rgb_characterization_witness :
    (html2rgb "#FF0000").isSome = true ∧
    generate_waveform_image [zeroFile 84] 500 100 "FF0000" "ZZZZZZ" false =
      .error .invalidColor :=
  ⟨html2rgb_characterization.1 "#FF0000" (by decide),
   html2rgb_characterization.2.2 [zeroFile 84] 500 100 "FF0000" "ZZZZZZ" false
     [[50]] (by decide) (by decide) (by decide) (by decide) (by decide)
     (by decide)⟩

/-! ## Claims about `analyze_music` -/

/-- C8: when the external analysis capability is unavailable,
`analyze_music` does not fail: whatever the `try`-block would have
computed, it returns the documented defaults with the availability flag
false. -/
theorem analyze_music_unavailable (tryBlock : AnalysisResult → AnalysisResult) :
    (analyze_music false tryBlock).key = "Unknown" ∧
    (analyze_music false tryBlock).mode = "Unknown" ∧
    (analyze_music false tryBlock).scale = "Unknown" ∧
    (analyze_music false tryBlock).tempo = 0 ∧
    (analyze_music false tryBlock).energy = "Medium" ∧
    (analyze_music false tryBlock).possible_chords = [] ∧
    (analyze_music false tryBlock).instrument_chords = [] ∧
    (analyze_music false tryBlock).instruments = [] ∧
    (analyze_music false tryBlock).genre_hints = [] ∧
    (analyze_music false tryBlock).analysis_available = false :=
  ⟨rfl, rfl, rfl, rfl, rfl, rfl, rfl, rfl, rfl, rfl⟩

/-- Witness for C8 with the identity `try`-block. -/
theorem analyze_music_unavailable_witness :
    (analyze_music false id).key = "Unknown" :=
  (analyze_music_unavailable id).1

/-! ## The best-scale selection (claim C6) -/

/-- The validity/comparison key of a scale candidate: the monotone image of
its Pearson correlation against the rotated template. -/
def scaleKey (chroma : List ℚ) (k : Nat) (c : Scale × List ℚ) : ℚ :=
  corrK chroma (roll c.2 k)

/-- A scale candidate counts (in the claim's sense) when its correlation is
defined (not NaN) and beats the floor `-1`. -/
def scaleValid (chroma : List ℚ) (k : Nat) (c : Scale × List ℚ) : Prop :=
  (corrB chroma ≠ 0 ∧ corrB (roll c.2 k) ≠ 0) ∧ -1 < scaleKey chroma k c

instance (chroma : List ℚ) (k : Nat) : DecidablePred (scaleValid chroma k) :=
  fun _ => inferInstanceAs (Decidable (_ ∧ _))

/-- The strict-argmax fold that underlies the best-scale loop: either no
candidate ever displaces the initial state (and every admissible candidate
is below the initial key), or the result is an admissible candidate that
strictly beats everything before it and is not beaten by anything after
it. -/
theorem foldBest_spec {α : Type} (p : α → Prop) [DecidablePred p] (f : α → ℚ)
    (nm : α → Scale) (l : List α) :
    ∀ (b : Scale × ℚ),
      (l.foldl (fun best c => if p c ∧ best.2 < f c then (nm c, f c) else best) b
          = b ∧ ∀ c ∈ l, p c → f c ≤ b.2) ∨
      (∃ l1 c l2, l = l1 ++ c :: l2 ∧ p c ∧ b.2 < f c ∧
        l.foldl (fun best c => if p c ∧ best.2 < f c then (nm c, f c) else best) b
          = (nm c, f c) ∧
        (∀ d ∈ l1, p d → f d < f c) ∧ (∀ d ∈ l2, p d → f d ≤ f c)) := by
  induction l with
  | nil =>
    intro b
    left
    exact ⟨rfl, by simp⟩
  | cons c0 l ih =>
    intro b
    by_cases hc : p c0 ∧ b.2 < f c0
    · have hstep : (c0 :: l).foldl
          (fun best c => if p c ∧ best.2 < f c then (nm c, f c) else best) b =
          l.foldl (fun best c => if p c ∧ best.2 < f c then (nm c, f c) else best)
            (nm c0, f c0) := by
        rw [List.foldl_cons, if_pos hc]
      rcases ih (nm c0, f c0) with ⟨hfold, hall⟩ |
        ⟨l1, c, l2, hsplit, hp, hlt, hfold, hearly, hlate⟩
      · right
        refine ⟨[], c0, l, by simp, hc.1, hc.2, ?_, by simp, ?_⟩
        · rw [hstep, hfold]
        · intro d hd hpd
          exact hall d hd hpd
      · right
        refine ⟨c0 :: l1, c, l2, by rw [hsplit]; rfl, hp, ?_, ?_, ?_, hlate⟩
        · exact lt_trans hc.2 hlt
        · rw [hstep, hfold]
        · intro d hd hpd
          rcases List.mem_cons.mp hd with rfl | hd
          · exact hlt
          · exact hearly d hd hpd
    · have hstep : (c0 :: l).foldl
          (fun best c => if p c ∧ best.2 < f c then (nm c, f c) else best) b =
          l.foldl (fun best c => if p c ∧ best.2 < f c then (nm c, f c) else best)
            b := by
        rw [List.foldl_cons, if_neg hc]
      have hc0 : p c0 → f c0 ≤ b.2 := by
        intro hp0
        by_contra hgt
        exact hc ⟨hp0, lt_of_not_ge hgt⟩
      rcases ih b with ⟨hfold, hall⟩ |
        ⟨l1, c, l2, hsplit, hp, hlt, hfold, hearly, hlate⟩
      · left
        refine ⟨by rw [hstep, hfold], ?_⟩
        intro d hd hpd
        rcases List.mem_cons.mp hd with rfl | hd
        · exact hc0 hpd
        · exact hall d hd hpd
      · right
        refine ⟨c0 :: l1, c, l2, by rw [hsplit]; rfl, hp, hlt, ?_, ?_, hlate⟩
        · rw [hstep, hfold]
        · intro d hd hpd
          rcases List.mem_cons.mp hd with rfl | hd
          · exact lt_of_le_of_lt (hc0 hpd) hlt
          · exact hearly d hd hpd

/-- `np.argmax` accumulator: either the incoming best survives and bounds
everything, or the first maximum of the remaining list wins. -/
theorem argmaxAux_spec (l : List ℚ) :
    ∀ (i bi : Nat) (bv : ℚ),
      (argmaxAux l i bi bv = bi ∧ ∀ j, j < l.length → l.getD j 0 ≤ bv) ∨
      (∃ j, j < l.length ∧ argmaxAux l i bi bv = i + j ∧ bv < l.getD j 0 ∧
        (∀ j2, j2 < j → l.getD j2 0 < l.getD j 0) ∧
        (∀ j2, j2 < l.length → l.getD j2 0 ≤ l.getD j 0)) := by
  induction l with
  | nil =>
    intro i bi bv
    left
    exact ⟨rfl, by simp⟩
  | cons x xs ih =>
    intro i bi bv
    by_cases hx : bv < x
    · have hstep : argmaxAux (x :: xs) i bi bv = argmaxAux xs (i + 1) i x := by
        rw [argmaxAux, if_pos hx]
      rcases ih (i + 1) i x with ⟨hfold, hall⟩ |
        ⟨j, hj, heq, hlt, hbefore, hmax⟩
      · right
        refine ⟨0, by simp, by rw [hstep, hfold, Nat.add_zero], hx, by omega, ?_⟩
        intro j2 hj2
        match j2 with
        | 0 => exact le_rfl
        | t + 1 =>
          rw [List.getD_cons_succ]
          exact hall t (by simpa using hj2)
      · right
        refine ⟨j + 1, by simpa using hj, by rw [hstep, heq]; omega, ?_, ?_, ?_⟩
        · rw [List.getD_cons_succ]
          exact lt_trans hx hlt
        · intro j2 hj2
          match j2 with
          | 0 =>
            rw [List.getD_cons_zero, List.getD_cons_succ]
            exact hlt
          | t + 1 =>
            rw [List.getD_cons_succ, List.getD_cons_succ]
            exact hbefore t (by omega)
        · intro j2 hj2
          match j2 with
          | 0 =>
            rw [List.getD_cons_zero, List.getD_cons_succ]
            exact le_of_lt hlt
          | t + 1 =>
            rw [List.getD_cons_succ, List.getD_cons_succ]
            exact hmax t (by simpa using hj2)
    · have hstep : argmaxAux (x :: xs) i bi bv = argmaxAux xs (i + 1) bi bv := by
        rw [argmaxAux, if_neg hx]
      have hxle : x ≤ bv := le_of_not_lt hx
      rcases ih (i + 1) bi bv with ⟨hfold, hall⟩ |
        ⟨j, hj, heq, hlt, hbefore, hmax⟩
      · left
        refine ⟨by rw [hstep, hfold], ?_⟩
        intro j2 hj2
        match j2 with
        | 0 => exact hxle
        | t + 1 =>
          rw [List.getD_cons_succ]
          exact hall t (by simpa using hj2)
      · right
        refine ⟨j + 1, by simpa using hj, by rw [hstep, heq]; omega, ?_, ?_, ?_⟩
        · rw [List.getD_cons_succ]
          exact hlt
        · intro j2 hj2
          match j2 with
          | 0 =>
            rw [List.getD_cons_zero, List.getD_cons_succ]
            exact lt_of_le_of_lt hxle hlt
          | t + 1 =>
            rw [List.getD_cons_succ, List.getD_cons_succ]
            exact hbefore t (by omega)
        · intro j2 hj2
          match j2 with
          | 0 =>
            rw [List.getD_cons_zero, List.getD_cons_succ]
            exact le_of_lt (lt_of_le_of_lt hxle hlt)
          | t + 1 =>
            rw [List.getD_cons_succ, List.getD_cons_succ]
            exact hmax t (by simpa using hj2)

/-- `argmaxIdx` returns the first index attaining the maximum. -/
theorem argmaxIdx_spec (l : List ℚ) (hne : l ≠ []) :
    argmaxIdx l < l.length ∧
    (∀ i, i < l.length → l.getD i 0 ≤ l.getD (argmaxIdx l) 0) ∧
    (∀ i, i < argmaxIdx l → l.getD i 0 < l.getD (argmaxIdx l) 0) := by
  match l, hne with
  | x :: xs, _ =>
    have hidx : argmaxIdx (x :: xs) = argmaxAux xs 1 0 x := rfl
    rcases argmaxAux_spec xs 1 0 x with ⟨hfold, hall⟩ |
      ⟨j, hj, heq, hlt, hbefore, hmax⟩
    · rw [hidx, hfold]
      refine ⟨by simp, ?_, by omega⟩
      intro i hi
      match i with
      | 0 => simp
      | t + 1 =>
        rw [List.getD_cons_succ, List.getD_cons_zero]
        exact hall t (by simpa using hi)
    · have hone : argmaxIdx (x :: xs) = j + 1 := by rw [hidx, heq]; omega
      rw [hone]
      refine ⟨by simpa using hj, ?_, ?_⟩
      · intro i hi
        rw [List.getD_cons_succ]
        match i with
        | 0 => exact le_of_lt hlt
        | t + 1 =>
          rw [List.getD_cons_succ]
          exact hmax t (by simpa using hi)
      · intro i hi
        rw [List.getD_cons_succ]
        match i with
        | 0 => exact hlt
        | t + 1 =>
          rw [List.getD_cons_succ]
          exact hbefore t (by omega)

/-- The mode test of source lines 285-288 recognizes exactly the four
minor-like scales. -/
theorem modeOf_minor_iff (s : Scale) :
    (modeOf s = "Minor" ↔
      s ∈ [Scale.aeolian, Scale.dorian, Scale.phrygian, Scale.locrian]) ∧
    (modeOf s = "Minor" ∨ modeOf s = "Major") := by
  cases s <;> exact ⟨by decide, by decide⟩

/-- C6: the Tonal Profile Classifier rotates each of the seven templates by
the first index of the chroma maximum, keeps the strictly best defined
correlation above the floor `-1` (comparisons on the monotone image
`corrK`), defaults to Ionian when nothing beats the floor, ties go to the
earlier template, and the mode is "Minor" exactly for Aeolian, Dorian,
Phrygian and Locrian (else "Major"). -/
theorem bestScale_spec (chroma : List ℚ) (hlen : chroma.length = 12) :
    (argmaxIdx chroma < 12 ∧
      (∀ i, i < 12 → chroma.getD i 0 ≤ chroma.getD (argmaxIdx chroma) 0) ∧
      (∀ i, i < argmaxIdx chroma →
        chroma.getD i 0 < chroma.getD (argmaxIdx chroma) 0)) ∧
    ((∀ c ∈ scaleTemplates, ¬ scaleValid chroma (argmaxIdx chroma) c) →
      bestScale chroma = Scale.ionian) ∧
    ((∃ c ∈ scaleTemplates, scaleValid chroma (argmaxIdx chroma) c) →
      ∃ l1 c l2, scaleTemplates = l1 ++ c :: l2 ∧ c.1 = bestScale chroma ∧
        scaleValid chroma (argmaxIdx chroma) c ∧
        (∀ d ∈ l1, scaleValid chroma (argmaxIdx chroma) d →
          scaleKey chroma (argmaxIdx chroma) d < scaleKey chroma (argmaxIdx chroma) c) ∧
        (∀ d ∈ l2, scaleValid chroma (argmaxIdx chroma) d →
          scaleKey chroma (argmaxIdx chroma) d ≤ scaleKey chroma (argmaxIdx chroma) c)) ∧
    ((modeOf (bestScale chroma) = "Minor" ↔
      bestScale chroma ∈ [Scale.aeolian, Scale.dorian, Scale.phrygian, Scale.locrian]) ∧
      (modeOf (bestScale chroma) = "Minor" ∨ modeOf (bestScale chroma) = "Major")) := by
  have hne : chroma ≠ [] := by
    intro h
    rw [h] at hlen
    exact absurd hlen (by decide)
  have hargmax := argmaxIdx_spec chroma hne
  refine ⟨⟨by omega, ?_, hargmax.2.2⟩, ?_, ?_, modeOf_minor_iff _⟩
  · intro i hi
    exact hargmax.2.1 i (by omega)
  · -- no candidate beats the floor: the initial Ionian survives
    intro hnone
    rcases foldBest_spec
        (fun c => corrB chroma ≠ 0 ∧ corrB (roll c.2 (argmaxIdx chroma)) ≠ 0)
        (fun c => corrK chroma (roll c.2 (argmaxIdx chroma)))
        Prod.fst scaleTemplates (Scale.ionian, -1) with
      ⟨hfold, _⟩ | ⟨l1, c, l2, hsplit, hp, hlt, hfold, _, _⟩
    · show (bestScalePair chroma (argmaxIdx chroma)).1 = Scale.ionian
      unfold bestScalePair
      rw [hfold]
    · exfalso
      apply hnone c (by rw [hsplit]; exact List.mem_append_right l1 (List.mem_cons_self c l2))
      exact ⟨hp, hlt⟩
  · -- some candidate beats the floor: the fold found the strict argmax
    intro hsome
    rcases foldBest_spec
        (fun c => corrB chroma ≠ 0 ∧ corrB (roll c.2 (argmaxIdx chroma)) ≠ 0)
        (fun c => corrK chroma (roll c.2 (argmaxIdx chroma)))
        Prod.fst scaleTemplates (Scale.ionian, -1) with
      ⟨hfold, hall⟩ | ⟨l1, c, l2, hsplit, hp, hlt, hfold, hearly, hlate⟩
    · exfalso
      obtain ⟨c, hc, hvalid⟩ := hsome
      have h1 : corrK chroma (roll c.2 (argmaxIdx chroma)) ≤ -1 := hall c hc hvalid.1
      have h2 : -1 < corrK chroma (roll c.2 (argmaxIdx chroma)) := hvalid.2
      linarith
    · refine ⟨l1, c, l2, hsplit, ?_, ⟨hp, hlt⟩,
        fun d hd hvd => hearly d hd hvd.1, fun d hd hvd => hlate d hd hvd.1⟩
      show c.1 = (bestScalePair chroma (argmaxIdx chroma)).1
      unfold bestScalePair
      rw [hfold]

/-- Witness for C6 at a concrete chroma vector with a unique maximum at
pitch class 4 (E). -/
theorem bestScale_spec_witness :
    argmaxIdx [(0 : ℚ), 0, 1, 0, 3, 1, 0, 1, 0, 1, 0, 1] < 12 :=
  (bestScale_spec [(0 : ℚ), 0, 1, 0, 3, 1, 0, 1, 0, 1, 0, 1] (by decide)).1.1

/-! ## The chord ranking (claim C7) -/

/-- C7: the Chord Candidate Ranker collects the defined candidates in
insertion order (pitch class 0..11 ascending, quality Major, Minor, 7th —
witnessed concretely by the first six labels), sorts them by a stable
descending sort on the correlation key (a permutation, sorted under
`chordGE`, with every key-ordered pair keeping its relative order), and
returns the first four labels; on the exact C-Major template the top label
is "C Major". -/
theorem topChords_spec :
    (∀ chroma : List ℚ,
      topChords chroma =
        ((List.insertionSort chordGE (possibleChords chroma)).take 4).map
          Prod.fst ∧
      List.Perm (List.insertionSort chordGE (possibleChords chroma))
        (possibleChords chroma) ∧
      (List.insertionSort chordGE (possibleChords chroma)).Sorted chordGE ∧
      (∀ a b : String × ℚ, List.Sublist [a, b] (possibleChords chroma) →
        b.2 ≤ a.2 →
        List.Sublist [a, b]
          (List.insertionSort chordGE (possibleChords chroma)))) ∧
    ((possibleChords chromaCMajor).map Prod.fst).take 6 =
      ["C Major", "C Minor", "C 7th", "C# Major", "C# Minor", "C# 7th"] ∧
    (topChords chromaCMajor).headD "" = "C Major" ∧
    topChords chromaCMajor = ["C Major", "C 7th", "C Minor", "E Minor"] := by
  haveI : IsTotal (String × ℚ) chordGE := ⟨fun a b => le_total b.2 a.2⟩
  haveI : IsTrans (String × ℚ) chordGE := ⟨fun a b c hab hbc => le_trans hbc hab⟩
  refine ⟨fun chroma => ⟨rfl, List.perm_insertionSort chordGE _,
    List.sorted_insertionSort chordGE _, fun a b hsub hle =>
      List.pair_sublist_insertionSort hle hsub⟩, by decide, by decide, by decide⟩

/-- Witness for C7: stability applied at two concrete candidates of the
C-Major profile ("C Major" with key 1 before "C 7th" with key 2/3). -/
theorem topChords_spec_witness :
    List.Sublist [("C Major", (1 : ℚ)), ("C 7th", (2 : ℚ) / 3)]
      (List.insertionSort chordGE (possibleChords chromaCMajor)) :=
  (topChords_spec.1 chromaCMajor).2.2.2 ("C Major", (1 : ℚ))
    ("C 7th", (2 : ℚ) / 3) (by decide) (by decide)

end SoundSight
